import Mathlib

/-!
Verification development for the NiMARE two-sample ALE meta-analysis example
(`examples/02_meta-analyses/08_plot_cbma_subtraction_conjunction.py`) and the
specified CBMA statistical engine it exercises.

The only concrete computation performed inside the repository source is the
conjunction image formula passed to `nilearn.image.math_img`:

  `np.where(img1 * img2 > 0, np.minimum(img1, img2), 0)`

which operates voxelwise on two z-maps.  The remaining components (ALE
combiner, subtraction engine, Monte Carlo FWE corrector, diagnostics,
configuration validation, result naming) live in the `nimare` library, which
the example imports; those are modelled from the specification text, as noted
on each definition.  Real-valued voxel data is embedded as rational numbers so
that every definition is executable and every predicate decidable.
-/

namespace NiMARE

/-- A voxel position in the template grid. -/
structure Voxel where
  x : Int
  y : Int
  z : Int
deriving DecidableEq, Repr

/-- A voxelwise statistic map (z-map, ALE map, ...): one rational value per
voxel. -/
abbrev VoxelMap := Voxel → ℚ

/-- Voxelwise conjunction value, embedded from the source formula
`np.where(img1 * img2 > 0, np.minimum(img1, img2), 0)`
(`08_plot_cbma_subtraction_conjunction.py`, line 186): the minimum of the two
values where their product is strictly positive, and `0` elsewhere. -/
def conjVal (a b : ℚ) : ℚ :=
  if a * b > 0 then min a b else 0

/-- The conjunction image `img_conj` of the source, applied voxelwise
(`math_img` evaluates the formula elementwise on the two input images). -/
def conj (zA zB : VoxelMap) : VoxelMap :=
  fun v => conjVal (zA v) (zB v)

/-- `conjVal` on two strictly positive inputs is their minimum. -/
lemma conjVal_of_pos {a b : ℚ} (ha : 0 < a) (hb : 0 < b) :
    conjVal a b = min a b := by
  unfold conjVal
  rw [if_pos (mul_pos ha hb)]

/-- `conjVal` is `0` when the product of the inputs is not strictly
positive. -/
lemma conjVal_of_nonpos {a b : ℚ} (h : a * b ≤ 0) :
    conjVal a b = 0 := by
  unfold conjVal
  rw [if_neg (not_lt_of_le h)]

/-- C1 (counterexample): the claim "the conjunction returns 0 whenever it is
not the case that both inputs are strictly positive" fails on the source
formula at `zA = -1`, `zB = -2`: neither input is positive, yet the product is
positive, so the formula returns `min (-1) (-2) = -2 ≠ 0`. -/
theorem conj_claim_C1_counterexample :
    conjVal (-1) (-2) = -2 ∧ ¬ (0 < (-1 : ℚ) ∧ 0 < (-2 : ℚ)) ∧
      conjVal (-1) (-2) ≠ 0 := by
  refine ⟨?_, ?_, ?_⟩
  · unfold conjVal
    norm_num
  · norm_num
  · unfold conjVal
    norm_num

/-- C1 (amended): for every pair of z-maps and every voxel, the conjunction
returns `min (zA v) (zB v)` when `zA v * zB v > 0` — in particular whenever
both inputs are strictly positive — and returns `0` when `zA v * zB v ≤ 0`;
the three cited instances hold: `conj 3 2 = 2`, `conj (-1) 2 = 0`, and the
result is `0` whenever one input is `0`. -/
theorem conj_C1_amended (zA zB : VoxelMap) (v : Voxel) :
    (0 < zA v ∧ 0 < zB v → conj zA zB v = min (zA v) (zB v)) ∧
    (0 < zA v * zB v → conj zA zB v = min (zA v) (zB v)) ∧
    (zA v * zB v ≤ 0 → conj zA zB v = 0) ∧
    conjVal 3 2 = 2 ∧ conjVal (-1) 2 = 0 ∧ (∀ c : ℚ, conjVal 0 c = 0) := by
  refine ⟨fun h => conjVal_of_pos h.1 h.2, ?_, fun h => conjVal_of_nonpos h, ?_, ?_, ?_⟩
  · intro h
    unfold conj conjVal
    rw [if_pos h]
  · rw [conjVal_of_pos (by norm_num) (by norm_num)]
    norm_num
  · exact conjVal_of_nonpos (by norm_num)
  · intro c
    exact conjVal_of_nonpos (by simp)

/-- C1 (witness): the amended theorem applied at a concrete map pair and
voxel with both values positive. -/
theorem conj_C1_amended_witness :
    conj (fun _ => 3) (fun _ => 2) ⟨0, 0, 0⟩ = min 3 2 :=
  (conj_C1_amended (fun _ => 3) (fun _ => 2) ⟨0, 0, 0⟩).1 ⟨by norm_num, by norm_num⟩

/-- C2 (counterexample): the claim `conj v ≤ min (zA v) (zB v)` fails on the
source formula at `zA = -1`, `zB = 2`: the formula returns `0`, but
`min (-1) 2 = -1 < 0`. -/
theorem conj_claim_C2_counterexample :
    ¬ (conjVal (-1) 2 ≤ min (-1 : ℚ) 2) := by
  unfold conjVal
  norm_num

/-- C2 (amended): `conj zA zB v ≤ min (zA v) (zB v)` holds exactly when the
conjunction equals that minimum, which happens exactly when the two values
have the same strict sign or are both nonnegative; in particular equality
holds wherever both inputs are strictly positive, and the inequality can fail
only at voxels of mixed sign, where the conjunction is `0`. -/
theorem conj_C2_amended (zA zB : VoxelMap) (v : Voxel) :
    (conj zA zB v ≤ min (zA v) (zB v) ↔ conj zA zB v = min (zA v) (zB v)) ∧
    (conj zA zB v = min (zA v) (zB v) ↔
      (0 < zA v * zB v ∨ (0 ≤ zA v ∧ 0 ≤ zB v))) := by
  set a := zA v with ha
  set b := zB v with hb
  show (conjVal a b ≤ min a b ↔ conjVal a b = min a b) ∧
    (conjVal a b = min a b ↔ (0 < a * b ∨ (0 ≤ a ∧ 0 ≤ b)))
  rcases lt_or_le 0 (a * b) with hpos | hnonpos
  · rw [conjVal, if_pos hpos]
    exact ⟨⟨fun _ => rfl, fun _ => le_refl _⟩, ⟨fun _ => Or.inl hpos, fun _ => rfl⟩⟩
  · rw [conjVal_of_nonpos hnonpos]
    have hminchar : 0 = min a b ↔ (0 ≤ a ∧ 0 ≤ b) := by
      constructor
      · intro h
        exact ⟨le_trans (le_of_eq h) (min_le_left a b),
          le_trans (le_of_eq h) (min_le_right a b)⟩
      · rintro ⟨hA, hB⟩
        have hz : a * b = 0 := le_antisymm hnonpos (mul_nonneg hA hB)
        rcases mul_eq_zero.mp hz with h0 | h0
        · rw [h0]
          exact (min_eq_left hB).symm
        · rw [h0]
          exact (min_eq_right hA).symm
    constructor
    · constructor
      · intro hle
        exact hminchar.mpr ⟨le_trans hle (min_le_left a b),
          le_trans hle (min_le_right a b)⟩
      · exact le_of_eq
    · exact hminchar.trans
        ⟨Or.inr, fun h => h.elim (fun hp => absurd hp (not_lt.mpr hnonpos)) id⟩

/-- C2 (witness): the amended theorem applied at a concrete map pair and
voxel. -/
theorem conj_C2_amended_witness :
    conj (fun _ => 3) (fun _ => 2) ⟨0, 0, 0⟩ = min 3 2 :=
  ((conj_C2_amended (fun _ => 3) (fun _ => 2) ⟨0, 0, 0⟩).2).mpr
    (Or.inl (by norm_num))

/-! ### ALE combiner (spec §4.2)

The `nimare.meta.cbma.ALE` estimator invoked by the example is library code
not contained in this repository, so the combination rule is modelled from
the specification. -/

/-- Modelled from the spec: the per-study modeled-activation values.  A
Dataset is a finite set of study indices; `ma i v` is study `i`'s MA value at
voxel `v` (spec §3, "ModeledActivation (MA) map"). -/
abbrev MAFamily := ℕ → Voxel → ℚ

/-- Modelled from the spec: the ALE combination rule of §4.2,
`ALE(v) = 1 - Π_i (1 - MA_i(v))` over the studies of the dataset `s`
(missing from `src/`: `nimare.meta.cbma.ALE.fit`, only called at line 55-57
of the example). -/
def ALEstat (ma : MAFamily) (s : Finset ℕ) (v : Voxel) : ℚ :=
  1 - ∏ i ∈ s, (1 - ma i v)

/-- If every MA value over `s` at `v` lies in `[0, 1]`, the product
`Π (1 - MA_i(v))` is nonnegative. -/
lemma prod_one_sub_nonneg (ma : MAFamily) (s : Finset ℕ) (v : Voxel)
    (hb : ∀ i ∈ s, 0 ≤ ma i v ∧ ma i v ≤ 1) :
    0 ≤ ∏ i ∈ s, (1 - ma i v) :=
  Finset.prod_nonneg fun i hi => by linarith [(hb i hi).2]

/-- C4: the ALE statistic is `1 - Π (1 - MA_i(v))`; it is monotonically
non-decreasing in each MA value (raising any study's MA values cannot lower
it), and adding a study `j` with MA values in `[0, 1]` to the dataset never
decreases it at any voxel. -/
theorem ALEstat_C4_monotone (ma ma' : MAFamily) (s : Finset ℕ) (j : ℕ)
    (v : Voxel)
    (hb : ∀ i ∈ s, 0 ≤ ma i v ∧ ma i v ≤ 1)
    (hmono : ∀ i ∈ s, ma i v ≤ ma' i v)
    (hb' : ∀ i ∈ s, ma' i v ≤ 1)
    (hj : j ∉ s) (hj0 : 0 ≤ ma j v) (hj1 : ma j v ≤ 1) :
    ALEstat ma s v = 1 - ∏ i ∈ s, (1 - ma i v) ∧
    ALEstat ma s v ≤ ALEstat ma' s v ∧
    ALEstat ma s v ≤ ALEstat ma (insert j s) v := by
  refine ⟨rfl, ?_, ?_⟩
  · unfold ALEstat
    have hle : ∏ i ∈ s, (1 - ma' i v) ≤ ∏ i ∈ s, (1 - ma i v) :=
      Finset.prod_le_prod (fun i hi => by linarith [hb' i hi])
        (fun i hi => by linarith [hmono i hi])
    linarith
  · unfold ALEstat
    rw [Finset.prod_insert hj]
    have hP : 0 ≤ ∏ i ∈ s, (1 - ma i v) := prod_one_sub_nonneg ma s v hb
    nlinarith

/-- C4 (witness): the theorem applied to the concrete dataset `{0}` with MA
value `1/2`, raised to `2/3`, and study `1` with MA value `1/4` added. -/
theorem ALEstat_C4_monotone_witness :
    ALEstat (fun i _ => if i = 0 then 1/2 else 1/4) {0} ⟨0, 0, 0⟩ =
      1 - ∏ i ∈ ({0} : Finset ℕ), (1 - (if i = 0 then (1/2 : ℚ) else 1/4)) ∧
    ALEstat (fun i _ => if i = 0 then 1/2 else 1/4) {0} ⟨0, 0, 0⟩ ≤
      ALEstat (fun i _ => if i = 0 then 2/3 else 1/4) {0} ⟨0, 0, 0⟩ ∧
    ALEstat (fun i _ => if i = 0 then 1/2 else 1/4) {0} ⟨0, 0, 0⟩ ≤
      ALEstat (fun i _ => if i = 0 then 1/2 else 1/4) (insert 1 {0}) ⟨0, 0, 0⟩ :=
  ALEstat_C4_monotone (fun i _ => if i = 0 then 1/2 else 1/4)
    (fun i _ => if i = 0 then 2/3 else 1/4) {0} 1 ⟨0, 0, 0⟩
    (by intro i hi; fin_cases hi <;> norm_num)
    (by intro i hi; fin_cases hi <;> norm_num)
    (by intro i hi; fin_cases hi <;> norm_num)
    (by decide) (by norm_num) (by norm_num)

/-! ### Jackknife diagnostic (spec §4.7) -/

/-- Modelled from the spec: the Jackknife diagnostic recomputes the ALE
statistic with a set of studies excluded from the dataset (missing from
`src/`: `nimare.diagnostics.Jackknife.transform`, only called at line 132 of
the example; §4.7 specifies recomputation "with that single study excluded",
and the sanity check concerns the empty exclusion set). -/
def jackknifeStat (ma : MAFamily) (dataset excluded : Finset ℕ) (v : Voxel) : ℚ :=
  ALEstat ma (dataset \ excluded) v

/-- C7: the jackknife recomputation with zero studies excluded reproduces the
full-sample ALE statistic exactly at every voxel (in particular at every
cluster peak voxel). -/
theorem jackknifeStat_C7_empty (ma : MAFamily) (dataset : Finset ℕ)
    (v : Voxel) :
    jackknifeStat ma dataset ∅ v = ALEstat ma dataset v := by
  unfold jackknifeStat
  rw [Finset.sdiff_empty]

/-! ### Subtraction engine (spec §4.5) -/

/-- Modelled from the spec: the observed subtraction statistic of §4.5,
`D = ALE_A - ALE_B` voxelwise (missing from `src/`:
`nimare.meta.cbma.ALESubtraction`, only constructed at line 150 of the
example and run through `PairwiseCBMAWorkflow.fit`). -/
def subtraction (ma : MAFamily) (A B : Finset ℕ) (v : Voxel) : ℚ :=
  ALEstat ma A v - ALEstat ma B v

/-- Modelled from the spec: the permutation null of §4.5.  The studies of
both groups are pooled; each permutation assigns a subset `S` of the pool of
size `|A|` to the first pseudo-group and its complement (each study in
exactly one pseudo-group) to the second, and records the pseudo-ALE
difference.  The full null distribution is the multiset of these values over
all partitions. -/
def subtractionNull (ma : MAFamily) (A B : Finset ℕ) (v : Voxel) :
    Multiset ℚ :=
  ((A ∪ B).powersetCard A.card).val.map
    (fun S => ALEstat ma S v - ALEstat ma ((A ∪ B) \ S) v)

/-- C3: swapping the two input datasets negates the observed subtraction map
exactly at every voxel, and leaves the multiset of absolute values of the
permutation null distribution unchanged. -/
theorem subtraction_C3_antisymmetry (ma : MAFamily) (A B : Finset ℕ)
    (v : Voxel) (hd : Disjoint A B) :
    subtraction ma A B v = -(subtraction ma B A v) ∧
    (subtractionNull ma A B v).map abs = (subtractionNull ma B A v).map abs := by
  constructor
  · unfold subtraction
    ring
  · unfold subtractionNull
    rw [Finset.union_comm B A]
    set pool := A ∪ B with hpool
    have hcard : pool.card = A.card + B.card := Finset.card_union_of_disjoint hd
    have hsub : ∀ S ∈ pool.powersetCard A.card, S ⊆ pool ∧ S.card = A.card :=
      fun S hS => Finset.mem_powersetCard.mp hS
    have hinj : Set.InjOn (fun S => pool \ S)
        (pool.powersetCard A.card : Set (Finset ℕ)) := by
      intro S1 h1 S2 h2 h
      have h' : pool \ S1 = pool \ S2 := h
      have e1 := Finset.sdiff_sdiff_eq_self (hsub S1 h1).1
      have e2 := Finset.sdiff_sdiff_eq_self (hsub S2 h2).1
      calc S1 = pool \ (pool \ S1) := e1.symm
        _ = pool \ (pool \ S2) := by rw [h']
        _ = S2 := e2
    have himage : pool.powersetCard B.card
        = (pool.powersetCard A.card).image (fun S => pool \ S) := by
      ext T
      simp only [Finset.mem_powersetCard, Finset.mem_image]
      constructor
      · rintro ⟨hT, hTc⟩
        refine ⟨pool \ T, ⟨Finset.sdiff_subset, ?_⟩,
          Finset.sdiff_sdiff_eq_self hT⟩
        rw [Finset.card_sdiff hT, hcard, hTc]
        omega
      · rintro ⟨S, ⟨hS, hSc⟩, rfl⟩
        refine ⟨Finset.sdiff_subset, ?_⟩
        rw [Finset.card_sdiff hS, hcard, hSc]
        omega
    have hval : (pool.powersetCard B.card).val
        = (pool.powersetCard A.card).val.map (fun S => pool \ S) := by
      rw [himage]
      exact Finset.image_val_of_injOn hinj
    rw [hval, Multiset.map_map, Multiset.map_map, Multiset.map_map]
    refine Multiset.map_congr rfl ?_
    intro S hS
    have hSsub : S ⊆ pool := (hsub S (Finset.mem_val.mp hS)).1
    simp only [Function.comp_apply]
    rw [Finset.sdiff_sdiff_eq_self hSsub, abs_sub_comm]

/-- C3 (witness): the theorem applied to the concrete disjoint datasets
`{0}` and `{1}` with MA value `i/(i+1)` for study `i`. -/
theorem subtraction_C3_antisymmetry_witness :
    subtraction (fun i _ => i / (i + 1)) {0} {1} ⟨0, 0, 0⟩ =
      -(subtraction (fun i _ => i / (i + 1)) {1} {0} ⟨0, 0, 0⟩) ∧
    ((subtractionNull (fun i _ => i / (i + 1)) {0} {1} ⟨0, 0, 0⟩).map abs =
      (subtractionNull (fun i _ => i / (i + 1)) {1} {0} ⟨0, 0, 0⟩).map abs) :=
  subtraction_C3_antisymmetry (fun i _ => i / (i + 1)) {0} {1} ⟨0, 0, 0⟩
    (by decide)

/-! ### Monte Carlo FWE correction (spec §4.4) -/

/-- Modelled from the spec: the voxel-level Monte Carlo FWE corrected p-value
of §4.4 (missing from `src/`: `nimare.correct.FWECorrector.transform`, only
called at lines 60-61 of the example).  `nullMaxima` is the list of recorded
whole-brain maximum voxel statistics, one per iteration; the corrected
p-value of an observed statistic is the fraction of iterations whose maximum
equals or exceeds it. -/
def correctedP (nullMaxima : List ℚ) (stat : ℚ) : ℚ :=
  ((nullMaxima.countP fun m => stat ≤ m) : ℚ) / (nullMaxima.length : ℚ)

/-- Modelled from the spec: the corrected z-map value is the inverse-normal
transform of `1 - corrected p` (§4.4); the transform `phiInv` itself is a
real-valued special function, abstracted as a parameter. -/
def correctedZ (phiInv : ℚ → ℚ) (nullMaxima : List ℚ) (stat : ℚ) : ℚ :=
  phiInv (1 - correctedP nullMaxima stat)

/-- C5: with at least one Monte Carlo iteration, the voxel-level corrected
p-value equals the fraction of iterations whose recorded maximum is at least
the observed statistic, lies in `[0, 1]`, and the corrected z value is the
inverse-normal transform of `1 - corrected p`. -/
theorem correctedP_C5 (nullMaxima : List ℚ) (stat : ℚ) (phiInv : ℚ → ℚ)
    (h : nullMaxima ≠ []) :
    correctedP nullMaxima stat
      = ((nullMaxima.countP fun m => stat ≤ m) : ℚ) / (nullMaxima.length : ℚ) ∧
    0 ≤ correctedP nullMaxima stat ∧ correctedP nullMaxima stat ≤ 1 ∧
    correctedZ phiInv nullMaxima stat
      = phiInv (1 - correctedP nullMaxima stat) := by
  have hlen : 0 < (nullMaxima.length : ℚ) := by
    have := List.length_pos.mpr h
    exact_mod_cast this
  refine ⟨rfl, ?_, ?_, rfl⟩
  · exact div_nonneg (Nat.cast_nonneg _) (Nat.cast_nonneg _)
  · rw [correctedP, div_le_one hlen]
    exact_mod_cast List.countP_le_length _

/-- C5 (witness): the theorem applied to the concrete null maxima `[1, 2]`
and observed statistic `3/2`, with the identity in place of the
inverse-normal transform. -/
theorem correctedP_C5_witness :
    correctedP [1, 2] (3/2)
      = ((([1, 2] : List ℚ).countP fun m => (3/2 : ℚ) ≤ m) : ℚ)
        / (([1, 2] : List ℚ).length : ℚ) ∧
    0 ≤ correctedP [1, 2] (3/2) ∧ correctedP [1, 2] (3/2) ≤ 1 ∧
    correctedZ id [1, 2] (3/2) = id (1 - correctedP [1, 2] (3/2)) :=
  correctedP_C5 [1, 2] (3/2) id (by decide)

/-! ### Monte Carlo scheduling and reproducibility (spec §5) -/

/-- Modelled from the spec: a single Monte Carlo iteration (§5).  `iterate`
abstracts the deterministic null analysis run on an RNG stream; iteration `i`
is seeded from the base seed plus its iteration index, never from wall-clock
time. -/
def mcIteration (iterate : ℕ → ℚ) (seed i : ℕ) : ℚ :=
  iterate (seed + i)

/-- Modelled from the spec: the sequential Monte Carlo run — `nIters`
iterations seeded `seed + 0, ..., seed + (nIters - 1)`, per-iteration
summaries collected in iteration order. -/
def mcRun (iterate : ℕ → ℚ) (seed nIters : ℕ) : List ℚ :=
  (List.range nIters).map (mcIteration iterate seed)

/-- Modelled from the spec: the parallel Monte Carlo run of §5 (missing from
`src/`: the `n_cores` execution path of `FWECorrector`, configured with
`n_cores=2` at line 59 of the example).  The iteration indices are
partitioned into per-worker chunks; each worker maps its own chunk with no
shared mutable state; the per-worker partial lists are concatenated once all
workers complete. -/
def mcRunParallel (iterate : ℕ → ℚ) (seed : ℕ) (chunks : List (List ℕ)) :
    List ℚ :=
  (chunks.map fun c => c.map (mcIteration iterate seed)).flatten

/-- C6: every scheduling of the iterations across workers — any partition of
the index sequence into chunks — produces exactly the sequential result, so
two runs with identical dataset function, `n_iters` and seed produce
bit-identical outputs regardless of worker count. -/
theorem mcRunParallel_C6_deterministic (iterate : ℕ → ℚ) (seed nIters : ℕ)
    (chunks chunks' : List (List ℕ))
    (hsched : chunks.flatten = List.range nIters)
    (hsched' : chunks'.flatten = List.range nIters) :
    mcRunParallel iterate seed chunks = mcRun iterate seed nIters ∧
    mcRunParallel iterate seed chunks = mcRunParallel iterate seed chunks' := by
  have key : ∀ cs : List (List ℕ), cs.flatten = List.range nIters →
      mcRunParallel iterate seed cs = mcRun iterate seed nIters := by
    intro cs hcs
    unfold mcRunParallel mcRun
    rw [← List.map_flatten, hcs]
  exact ⟨key chunks hsched, (key chunks hsched).trans (key chunks' hsched').symm⟩

/-- C6 (witness): the theorem applied to two concrete schedules of 3
iterations — one worker holding all indices versus two workers holding
`[0, 1]` and `[2]`. -/
theorem mcRunParallel_C6_deterministic_witness :
    mcRunParallel (fun n => (n : ℚ)) 7 [[0, 1], [2]] =
      mcRun (fun n => (n : ℚ)) 7 3 ∧
    mcRunParallel (fun n => (n : ℚ)) 7 [[0, 1], [2]] =
      mcRunParallel (fun n => (n : ℚ)) 7 [[0, 1, 2]] :=
  mcRunParallel_C6_deterministic (fun n => (n : ℚ)) 7 3 [[0, 1], [2]]
    [[0, 1, 2]] (by decide) (by decide)

/-! ### Configuration validation (spec §7) -/

/-- Modelled from the spec: the `ConfigurationError` conditions of §7. -/
inductive ConfigurationError where
  | mismatchedSpaces : ConfigurationError
  | nonPositiveSampleSize : ConfigurationError
  | nonPositiveNIters : ConfigurationError
  | tooFewStudies : ConfigurationError
deriving DecidableEq, Repr

/-- Modelled from the spec: the configuration surface relevant to §7's
fail-fast checks — template-space agreement, a sample size, a study count
for within-sample analyses, and the Monte Carlo iteration count. -/
structure AnalysisConfig where
  spacesMatch : Bool
  sampleSize : Int
  nStudies : ℕ
  nIters : Int
deriving DecidableEq, Repr

/-- Modelled from the spec: fail-fast configuration validation (§7), run
before any computation (missing from `src/`: the validation behind
`FWECorrector(n_iters=100)` at line 59 and `ALESubtraction(n_iters=10)` at
line 150 of the example).  On success it returns the accepted iteration
count unchanged, paired with the "statistically unreliable" flag that §4.4
attaches to iteration counts below 500. -/
def validateConfig (c : AnalysisConfig) :
    Except ConfigurationError (Int × Bool) :=
  if c.spacesMatch = false then .error .mismatchedSpaces
  else if c.sampleSize ≤ 0 then .error .nonPositiveSampleSize
  else if c.nIters ≤ 0 then .error .nonPositiveNIters
  else if c.nStudies < 2 then .error .tooFewStudies
  else .ok (c.nIters, decide (c.nIters < 500))

/-- C8: validation signals a `ConfigurationError` for mismatched spaces,
non-positive sample size, non-positive `n_iters` and fewer than 2 studies,
while every otherwise-valid configuration with `n_iters ≥ 1` is accepted
with the iteration count returned exactly as given (never inflated) and the
below-500 unreliability flag set exactly when `n_iters < 500`. -/
theorem validateConfig_C8 (c : AnalysisConfig) :
    (c.spacesMatch = false → validateConfig c = .error .mismatchedSpaces) ∧
    (c.spacesMatch = true → c.sampleSize ≤ 0 →
      validateConfig c = .error .nonPositiveSampleSize) ∧
    (c.spacesMatch = true → 0 < c.sampleSize → c.nIters ≤ 0 →
      validateConfig c = .error .nonPositiveNIters) ∧
    (c.spacesMatch = true → 0 < c.sampleSize → 1 ≤ c.nIters →
      c.nStudies < 2 → validateConfig c = .error .tooFewStudies) ∧
    (c.spacesMatch = true → 0 < c.sampleSize → 1 ≤ c.nIters →
      2 ≤ c.nStudies →
      validateConfig c = .ok (c.nIters, decide (c.nIters < 500))) := by
  refine ⟨?_, ?_, ?_, ?_, ?_⟩
  · intro hsp
    unfold validateConfig
    rw [if_pos hsp]
  · intro hsp hss
    unfold validateConfig
    rw [if_neg (by simp [hsp]), if_pos hss]
  · intro hsp hss hni
    unfold validateConfig
    rw [if_neg (by simp [hsp]), if_neg (not_le.mpr hss), if_pos hni]
  · intro hsp hss hni hst
    unfold validateConfig
    rw [if_neg (by simp [hsp]), if_neg (not_le.mpr hss),
      if_neg (by omega), if_pos hst]
  · intro hsp hss hni hst
    unfold validateConfig
    rw [if_neg (by simp [hsp]), if_neg (not_le.mpr hss),
      if_neg (by omega), if_neg (by omega)]

/-- C8 (witness): a valid configuration with `n_iters = 100` (as used at
line 59 of the example) is accepted unchanged and flagged as below the
500-iteration reliability floor. -/
theorem validateConfig_C8_witness :
    validateConfig ⟨true, 10, 3, 100⟩ = .ok (100, true) := by
  have h := (validateConfig_C8 ⟨true, 10, 3, 100⟩).2.2.2.2 rfl (by norm_num)
    (by norm_num) (by norm_num)
  simpa using h

/-! ### MetaResult key naming (spec §6) -/

/-- Split a character list at every occurrence of `sep`; the separator is
dropped and empty fields are kept. -/
def splitFields (sep : Char) : List Char → List (List Char)
  | [] => [[]]
  | c :: cs =>
      let rest := splitFields sep cs
      if c = sep then [] :: rest
      else
        match rest with
        | f :: fs => (c :: f) :: fs
        | [] => [[c]]

/-- The `_`-separated fields of a MetaResult map or table key. -/
def keyFields (s : String) : List (List Char) :=
  splitFields '_' s.data

/-- Whether a key field reads `tag-<value>` with a nonempty value. -/
def taggedField (tag : String) (field : List Char) : Bool :=
  match splitFields '-' field with
  | t :: rest => t == tag.data && !rest.isEmpty
  | [] => false

/-- The map-key naming convention, following the spec's words (§6):
`<stat>_desc-<descriptor>_level-<voxel|cluster>_corr-<method>`, where the
method tag of a corrected map may carry further `_`-separated metadata
fields such as `method-montecarlo` (§4.4). -/
def isConventionalMapKey (s : String) : Bool :=
  match keyFields s with
  | stat :: desc :: level :: corr :: rest =>
      !stat.isEmpty && taggedField "desc" desc &&
      (level == "level-voxel".data || level == "level-cluster".data) &&
      taggedField "corr" corr &&
      rest.all (taggedField "method")
  | _ => false

/-- The Monte Carlo FWE method tag required by §4.4: the correction fields
of the key read exactly `corr-FWE_method-montecarlo`. -/
def isMonteCarloFWEKey (s : String) : Bool :=
  match keyFields s with
  | _ :: _ :: _ :: corr :: rest =>
      corr == "corr-FWE".data && rest == ["method-montecarlo".data]
  | _ => false

/-- The table-key naming convention, following the spec's words (§6):
`..._tab-<clust|counts>[_tail-<positive|negative>]`. -/
def isConventionalTableKey (s : String) : Bool :=
  match (keyFields s).reverse with
  | last :: rest =>
      (last == "tab-clust".data || last == "tab-counts".data) ||
      ((last == "tail-positive".data || last == "tail-negative".data) &&
        (match rest with
         | prev :: _ => prev == "tab-clust".data || prev == "tab-counts".data
         | [] => false))
  | [] => false

/-- The map keys the example reads from its MetaResults
(`08_plot_cbma_subtraction_conjunction.py`, lines 64-66, 79-81, and as the
diagnostics `target_image` at lines 105 and 129). -/
def exampleMapKeys : List String :=
  ["z_desc-size_level-cluster_corr-FWE_method-montecarlo"]

/-- The table keys the example reads from its MetaResults (lines 112-114,
119-122 and 133-135). -/
def exampleTableKeys : List String :=
  ["z_desc-size_level-cluster_corr-FWE_method-montecarlo_tab-clust",
   "z_desc-size_level-cluster_corr-FWE_method-montecarlo_diag-FocusCounter_tab-counts_tail-positive",
   "z_desc-size_level-cluster_corr-FWE_method-montecarlo_diag-Jackknife_tab-counts_tail-positive"]

/-- C9: every map key the example exposes follows the
`<stat>_desc-<descriptor>_level-<voxel|cluster>_corr-<method>` convention and
carries the `corr-FWE_method-montecarlo` tag, and every table key follows
the `..._tab-<clust|counts>[_tail-<positive|negative>]` convention. -/
theorem metaResultKeys_C9_convention :
    exampleMapKeys.all isConventionalMapKey = true ∧
    exampleMapKeys.all isMonteCarloFWEKey = true ∧
    exampleTableKeys.all isConventionalTableKey = true := by
  decide

/-! ### Estimator and corrector reuse (spec §5, §9) -/

/-- Modelled from the spec: an ALE estimator instance — its configuration
(the null-method name, as character data) together with whatever inputs it
caches once fitted (missing from `src/`: the `ALE` class; the single `ale`
instance is fitted to two datasets in a row at lines 55-57 of the
example). -/
structure ALEInstance where
  nullMethod : List Char
  cachedInput : Option (Finset ℕ)
deriving DecidableEq

/-- Modelled from the spec: `fit` consumes a Dataset and produces the ALE
map; per §5 the estimator is "side-effect-free beyond returning their
computed maps", so the returned map depends only on the configuration and
the dataset argument, while the instance merely records the inputs it
consumed. -/
def fitALE (ma : MAFamily) (e : ALEInstance) (d : Finset ℕ) :
    ALEInstance × VoxelMap :=
  ({ e with cachedInput := some d }, fun v => ALEstat ma d v)

/-- Modelled from the spec: an FWE corrector instance — its iteration count
and whatever null distribution it cached from its last `transform` call
(missing from `src/`: `FWECorrector`; the single `corr` instance is applied
to two MetaResults at lines 59-61 of the example). -/
structure CorrectorInstance where
  nIters : ℕ
  cachedNull : Option (List ℚ)
deriving DecidableEq

/-- Modelled from the spec: `transform` consumes an observed map together
with the per-iteration null maxima and produces the corrected p-value map;
like `fit` it is side-effect-free beyond returning its computed map. -/
def transformFWE (c : CorrectorInstance) (nullMaxima : List ℚ)
    (observed : VoxelMap) : CorrectorInstance × VoxelMap :=
  ({ c with cachedNull := some nullMaxima },
   fun v => correctedP nullMaxima (observed v))

/-- C10: reusing one estimator or corrector instance on a second input
yields exactly the map a freshly constructed instance would produce on that
input, and refitting the first input after the reuse still reproduces its
original map — no state carried from the first call leaks into any later
result. -/
theorem fit_C10_no_interference (ma : MAFamily) (method : List Char)
    (d1 d2 : Finset ℕ) (cfg : ℕ) (n1 n2 : List ℚ) (o1 o2 : VoxelMap) :
    (fitALE ma (fitALE ma ⟨method, none⟩ d1).1 d2).2
      = (fitALE ma ⟨method, none⟩ d2).2 ∧
    (fitALE ma (fitALE ma ⟨method, none⟩ d1).1 d1).2
      = (fitALE ma ⟨method, none⟩ d1).2 ∧
    (transformFWE (transformFWE ⟨cfg, none⟩ n1 o1).1 n2 o2).2
      = (transformFWE ⟨cfg, none⟩ n2 o2).2 :=
  ⟨rfl, rfl, rfl⟩

end NiMARE
